import Mathlib

/-!
Shallow embedding of the pixel-normalization and redaction pipeline of
`redact_phi.py` (DICOM burned-in-text redaction), together with proofs about
its window/level arithmetic, frame selection, box merging and region
redaction.  Machine floats are modelled as rationals; `astype(np.uint8)` is
modelled as truncation toward zero followed by wrap modulo 256; numpy arrays
are modelled as lists.  External collaborators (pydicom decoding, cv2 CLAHE,
PaddleOCR) enter only through their input/output values.
-/

namespace RedactPhi

/-- Truncation of a rational toward zero, as the C-style cast used by
`numpy.ndarray.astype` performs on floating-point values. -/
def ratTrunc (q : ℚ) : ℤ := if q < 0 then -(⌊-q⌋) else ⌊q⌋

/-- Conversion of a float sample to `uint8` as performed by `astype(np.uint8)`:
truncate toward zero, then wrap modulo 256. -/
def toU8 (q : ℚ) : ℕ := ((ratTrunc q) % 256).toNat

/-- `np.clip(v, lo, hi)` on one sample. -/
def npClip (v lo hi : ℚ) : ℚ := min (max v lo) hi

/-- `np.min` of a (nonempty) array, modelled on lists. -/
def npMin (l : List ℚ) : ℚ := l.foldl min l.headI

/-- `np.max` of a (nonempty) array, modelled on lists. -/
def npMax (l : List ℚ) : ℚ := l.foldl max l.headI

/-- The per-sample window rescale
`((windowed - lower) / (upper - lower) * 255.0).astype(np.uint8)` of
`redact_phi.py` line 106 (strategy A) and line 193 (strategy B). -/
def windowRescale (lower upper v : ℚ) : ℕ :=
  toU8 ((v - lower) / (upper - lower) * 255)

/-- Spec-side window rescale, written from the claim words rather than the
source: round toward the nearest integer, then clamp to the `uint8` range.
Declared only to be compared with the code's `windowRescale`. -/
def windowRescaleSpec (lower upper v : ℚ) : ℕ :=
  min 255 (max 0 (round ((v - lower) / (upper - lower) * 255))).toNat

/-- Strategy A window resolution (`redact_phi.py` lines 83-99): use the
metadata `WindowCenter`/`WindowWidth` when both are present (multi-valued tags
are modelled as already reduced to their first element), otherwise derive a
window from the data itself.  Returns `(center, width)`. -/
def resolveWindowA (wc ww : Option ℚ) (data : List ℚ) : ℚ × ℚ :=
  match wc, ww with
  | some c, some w => (c, w)
  | _, _ =>
    let mn := npMin data
    let mx := npMax data
    ((mn + mx) / 2, if mx > mn then mx - mn else 1)

/-- Strategy B (CLAHE mode) window resolution (`redact_phi.py` lines 146-183):
when either tag is missing the fixed full-range window `(128, 256)` is used,
and when `BitsStored > 8` the metadata window is likewise replaced by
`(128, 256)`. -/
def resolveWindowB (bitsStored : ℕ) (wc ww : Option ℚ) : ℚ × ℚ :=
  match wc, ww with
  | some c, some w => if bitsStored > 8 then (128, 256) else (c, w)
  | _, _ => (128, 256)

/-- Denominator `upper - lower` of the strategy A window rescale (line 106),
with `lower`/`upper` computed from the resolved window as on lines 101-102. -/
def strategyA_denom (wc ww : Option ℚ) (data : List ℚ) : ℚ :=
  let cw := resolveWindowA wc ww data
  (cw.1 + cw.2 / 2) - (cw.1 - cw.2 / 2)

/-- Denominator `upper - lower` of the strategy B window rescale (line 193),
with `lower`/`upper` computed as on lines 185-186. -/
def strategyB_denom (bitsStored : ℕ) (wc ww : Option ℚ) : ℚ :=
  let cw := resolveWindowB bitsStored wc ww
  (cw.1 + cw.2 / 2) - (cw.1 - cw.2 / 2)

/-- Full-dynamic-range conversion to 8 bits of a non-`uint8` array
(`redact_phi.py` lines 123-131): rescale by the data min/max when the range is
nondegenerate, otherwise keep the values and only cast. -/
def fullRangeTo8 (data : List ℚ) : List ℕ :=
  let mn := npMin data
  let mx := npMax data
  if mx > mn then data.map (fun v => toU8 ((v - mn) / (mx - mn) * 255))
  else data.map (fun v => toU8 v)

/-- `cv2.bitwise_not` on a `uint8` sample: bitwise complement. -/
def bitwiseNot8 (v : ℕ) : ℕ := v ^^^ 255

/-- Strategy A per-sample normalization (`redact_phi.py` lines 101-110): clip
to the resolved window, rescale to 8 bits, then invert for `MONOCHROME1`. -/
def strategyA_pixel (photometric : String) (wc ww : Option ℚ) (data : List ℚ) (v : ℚ) : ℕ :=
  let cw := resolveWindowA wc ww data
  let lower := cw.1 - cw.2 / 2
  let upper := cw.1 + cw.2 / 2
  let v8 := windowRescale lower upper (npClip v lower upper)
  if photometric = "MONOCHROME1" then bitwiseNot8 v8 else v8

/-- Strategy B per-sample window/level stage (`redact_phi.py` lines 185-197),
applied to one sample of the CLAHE output (CLAHE itself is the external `cv2`
collaborator, so its output sample is the input here). -/
def strategyB_pixel (photometric : String) (bitsStored : ℕ) (wc ww : Option ℚ) (claheVal : ℕ) : ℕ :=
  let cw := resolveWindowB bitsStored wc ww
  let lower := cw.1 - cw.2 / 2
  let upper := cw.1 + cw.2 / 2
  let v8 := windowRescale lower upper (npClip claheVal lower upper)
  if photometric = "MONOCHROME1" then bitwiseNot8 v8 else v8

/-- Shape of a decoded numpy pixel array: its list of dimension sizes.  The
frame-selection code (`redact_phi.py` lines 40-62) branches only on the rank,
`SamplesPerPixel`, and the size of the trailing (channel) axis, so sample
payloads are abstracted to shapes here and the `cv2.cvtColor` conversions are
modelled by their effect on the shape. -/
structure NdShape where
  dims : List ℕ
deriving DecidableEq

/-- Error type named by the specification for unsupported channel counts.  No
such exception exists anywhere in `redact_phi.py`; the type is declared only
so that the spec claim about it can be stated. -/
inductive FrameError
  | unsupportedImageFormat
deriving DecidableEq

/-- `shape[-1]` of an array. -/
def channels (a : NdShape) : ℕ := a.dims.getLastD 1

/-- Multiframe color reduction `pixel_array = pixel_array[0]` for rank > 3
(`redact_phi.py` lines 42-44). -/
def selColorFrame (a : NdShape) : NdShape :=
  if a.dims.length > 3 then ⟨a.dims.tail⟩ else a

/-- Frame selection (`redact_phi.py` lines 40-62): for color input, capture a
BGR output copy when the channel count is 3 or 4 and convert to grayscale; for
multiframe grayscale take the first frame.  Every path returns `Except.ok`;
the code contains no failure branch for other channel counts, which simply
leave the array unconverted and the output unset. -/
def frameSelect (samplesPerPixel : ℕ) (a0 : NdShape) :
    Except FrameError (NdShape × Option NdShape) :=
  if samplesPerPixel > 1 then
    let a := selColorFrame a0
    let out : Option NdShape :=
      if channels a = 3 then some a
      else if channels a = 4 then some ⟨a.dims.dropLast ++ [3]⟩
      else none
    let gray : NdShape :=
      if channels a = 3 ∨ channels a = 4 then ⟨a.dims.dropLast⟩ else a
    Except.ok (gray, out)
  else if a0.dims.length > 2 then Except.ok (⟨a0.dims.tail⟩, none)
  else Except.ok (a0, none)

/-- An axis-aligned box `(x, y, w, h)` as used by `_merge_overlapping_boxes`. -/
structure Box where
  x : ℤ
  y : ℤ
  w : ℤ
  h : ℤ
deriving DecidableEq

/-- The overlap-or-within-margin test on both axes (`redact_phi.py` lines
411-412). -/
def boxClose (margin : ℤ) (b m : Box) : Prop :=
  b.x ≤ m.x + m.w + margin ∧ b.x + b.w ≥ m.x - margin ∧
  b.y ≤ m.y + m.h + margin ∧ b.y + b.h ≥ m.y - margin

instance (margin : ℤ) (b m : Box) : Decidable (boxClose margin b m) := by
  unfold boxClose
  infer_instance

/-- The union bounding box of lines 414-418. -/
def boxUnion (b m : Box) : Box :=
  let nx := min b.x m.x
  let ny := min b.y m.y
  let nx2 := max (b.x + b.w) (m.x + m.w)
  let ny2 := max (b.y + b.h) (m.y + m.h)
  ⟨nx, ny, nx2 - nx, ny2 - ny⟩

/-- The inner loop of `_merge_overlapping_boxes` for one incoming box
(`redact_phi.py` lines 400-423): scan the already-merged list in order, the
first close box absorbs the incoming one (first match wins), otherwise it is
appended at the end. -/
def insertBox (margin : ℤ) (b : Box) : List Box → List Box
  | [] => [b]
  | m :: ms => if boxClose margin b m then boxUnion b m :: ms else m :: insertBox margin b ms

/-- The sort key `(y, x)` of line 397.  Python `sorted` is a stable sort, and a
stable sort by a total preorder key is unique, so `List.insertionSort` by this
relation computes the same list. -/
def boxKeyLE (a b : Box) : Prop := a.y < b.y ∨ (a.y = b.y ∧ a.x ≤ b.x)

instance : DecidableRel boxKeyLE := fun a b => by
  unfold boxKeyLE
  infer_instance

/-- `_merge_overlapping_boxes` (`redact_phi.py` lines 381-425). -/
def merge_overlapping_boxes (margin : ℤ) (boxes : List Box) : List Box :=
  if boxes = [] then []
  else (List.insertionSort boxKeyLE boxes).foldl (fun merged b => insertBox margin b merged) []

/-- A grayscale raster: rows of `uint8` samples. -/
abbrev Image := List (List ℕ)

/-- One OCR detection as produced by `_parse_ocr_results`: optional polygon,
recognized text, confidence.  Polygon coordinates are modelled as integers
(the source applies `int()` to them before use). -/
structure Detection where
  bbox : Option (List (ℤ × ℤ))
  text : String
  conf : ℚ

/-- Truthiness of Python `text.strip()`: some character is not whitespace. -/
def stripTruthy (s : String) : Bool := s.data.any (fun c => !c.isWhitespace)

/-- Bounding-box extraction for one detection (`redact_phi.py` lines 354-366):
skip blank text, missing polygons and polygons of fewer than 4 points; keep
only boxes of positive width and height. -/
def detBox (d : Detection) : Option Box :=
  if !stripTruthy d.text then none
  else match d.bbox with
  | none => none
  | some pts =>
    if pts.length < 4 then none
    else
      let xs := pts.map (fun p => p.1)
      let ys := pts.map (fun p => p.2)
      let xmin := xs.foldl min xs.headI
      let xmax := xs.foldl max xs.headI
      let ymin := ys.foldl min ys.headI
      let ymax := ys.foldl max ys.headI
      if 0 < xmax - xmin ∧ 0 < ymax - ymin then
        some ⟨xmin, ymin, xmax - xmin, ymax - ymin⟩
      else none

/-- `np.median` of the flattened grayscale raster: middle of the sorted values,
or the mean of the two middle values for even length. -/
def npMedian (l : List ℕ) : ℚ :=
  let s := List.insertionSort (· ≤ ·) l
  let n := s.length
  if n % 2 = 1 then ((s.getD (n / 2) 0 : ℕ) : ℚ)
  else (((s.getD (n / 2 - 1) 0 : ℕ) : ℚ) + ((s.getD (n / 2) 0 : ℕ) : ℚ)) / 2

/-- A fill region `[x1, x2) × [y1, y2)` in (possibly still un-normalized)
numpy slice coordinates. -/
structure Region where
  x1 : ℤ
  y1 : ℤ
  x2 : ℤ
  y2 : ℤ
deriving DecidableEq

/-- `image.shape[0]`. -/
def imgHeight (img : Image) : ℕ := img.length

/-- `image.shape[1]` of a rectangular raster. -/
def imgWidth (img : Image) : ℕ := img.headI.length

/-- Numpy/Python normalization of a slice index against an axis of length `n`:
a negative index counts from the end of the axis (`i` becomes `n + i`).  The
remaining clampings of Python slice semantics (to `[0, n]`) need no explicit
treatment in `fillRow`/`fillRows`, whose fills are bounded by the actual row
and image extents and are empty when `stop ≤ start`. -/
def sliceIdx (n : ℕ) (i : ℤ) : ℤ := if i < 0 then n + i else i

/-- The slice region actually assigned by `redacted[y1:y2, x1:x2]`: every
bound is normalized against the shape of the array being assigned.  In
particular a clamped stop that is still negative wraps to `shape + stop`, so
a rectangle lying further left of (or above) the image than the padding
fills leading columns (rows). -/
def normRegion (img : Image) (r : Region) : Region :=
  ⟨sliceIdx (imgWidth img) r.x1, sliceIdx (imgHeight img) r.y1,
   sliceIdx (imgWidth img) r.x2, sliceIdx (imgHeight img) r.y2⟩

/-- Row slice assignment `row[x1:x2] = v` for already-normalized bounds,
tracking the running column index. -/
def fillRow (v : ℕ) (x1 x2 : ℤ) : ℤ → List ℕ → List ℕ
  | _, [] => []
  | i, p :: ps => (if x1 ≤ i ∧ i < x2 then v else p) :: fillRow v x1 x2 (i + 1) ps

/-- Slice assignment `redacted[y1:y2, x1:x2] = v` for already-normalized
bounds, tracking the running row index. -/
def fillRows (v : ℕ) (x1 x2 y1 y2 : ℤ) : ℤ → Image → Image
  | _, [] => []
  | j, r :: rs =>
    (if y1 ≤ j ∧ j < y2 then fillRow v x1 x2 0 r else r) :: fillRows v x1 x2 y1 y2 (j + 1) rs

/-- The full slice assignment `img[y1:y2, x1:x2] = v`: normalize the bounds
against the shape of `img` as numpy does, then fill. -/
def fillRegion (v : ℕ) (r : Region) (img : Image) : Image :=
  let nr := normRegion img r
  fillRows v nr.x1 nr.x2 nr.y1 nr.y2 0 img

/-- Padding expansion of a box, clamped to the image bounds (`redact_phi.py`
lines 371-375). -/
def expandClamp (img : Image) (padding : ℤ) (b : Box) : Region :=
  ⟨max 0 (b.x - padding), max 0 (b.y - padding),
   min (imgWidth img) (b.x + b.w + padding),
   min (imgHeight img) (b.y + b.h + padding)⟩

/-- Box collection and merge step of `redact_text_regions` (`redact_phi.py`
lines 351-369). -/
def redactBoxes (detections : List Detection) : List Box :=
  let boxes := detections.filterMap detBox
  if boxes = [] then boxes else merge_overlapping_boxes 5 boxes

/-- `redact_text_regions` (`redact_phi.py` lines 335-378) on a grayscale
raster: copy the input, compute the median fill value of the input, and
overwrite each padded merged rectangle with it.  The float median is cast to
the array dtype at slice assignment.  As a pure function it returns a new
list and cannot mutate its argument, matching `image.copy()` in the source. -/
def redact_text_regions (image : Image) (detections : List Detection) (padding : ℤ) : Image :=
  let median_val := toU8 (npMedian image.flatten)
  (redactBoxes detections).foldl
    (fun red b => fillRegion median_val (expandClamp image padding b) red) image

/-- Assembly of the extracted-text artifact (`redact_phi.py` lines 274-284):
texts passing the `text.strip()` truthiness check are joined with single
spaces, otherwise the literal placeholder is produced. -/
def extractedText (detections : List Detection) : String :=
  let all_text := (detections.filter (fun d => stripTruthy d.text)).map (fun d => d.text)
  if all_text = [] then "(No text detected)" else String.intercalate " " all_text

/-- Pixel read with out-of-range default, for stating frame conditions. -/
def getP (img : Image) (y x : ℕ) : ℕ := (img.getD y []).getD x 0

/-- Membership of pixel `(x, y)` in a clamped region. -/
def inRegion (r : Region) (x y : ℕ) : Prop :=
  r.x1 ≤ (x : ℤ) ∧ (x : ℤ) < r.x2 ∧ r.y1 ≤ (y : ℤ) ∧ (y : ℤ) < r.y2

instance (r : Region) (x y : ℕ) : Decidable (inRegion r x y) := by
  unfold inRegion
  infer_instance

/-- Rectangle containment: `m` contains `b`. -/
def Box.contains (m b : Box) : Prop :=
  m.x ≤ b.x ∧ m.y ≤ b.y ∧ b.x + b.w ≤ m.x + m.w ∧ b.y + b.h ≤ m.y + m.h

instance (m b : Box) : Decidable (Box.contains m b) := by
  unfold Box.contains
  infer_instance

/-- The `median_val` fill used by `redact_text_regions`, after the cast to the
array dtype. -/
def medianFill (image : Image) : ℕ := toU8 (npMedian image.flatten)

/-- Unfolding equation of `redact_text_regions` as a fold of region fills. -/
lemma redact_eq (image : Image) (detections : List Detection) (padding : ℤ) :
    redact_text_regions image detections padding =
      (redactBoxes detections).foldl
        (fun red b => fillRegion (medianFill image) (expandClamp image padding b) red) image := rfl

lemma length_fillRow (v : ℕ) (x1 x2 : ℤ) (i : ℤ) (row : List ℕ) :
    (fillRow v x1 x2 i row).length = row.length := by
  induction row generalizing i with
  | nil => rfl
  | cons p ps ih => simp [fillRow, ih]

lemma fillRow_getD (v : ℕ) (x1 x2 : ℤ) (i : ℤ) (row : List ℕ) (x : ℕ) :
    (fillRow v x1 x2 i row).getD x 0 =
      if x1 ≤ i + (x : ℤ) ∧ i + (x : ℤ) < x2 ∧ x < row.length then v
      else row.getD x 0 := by
  induction row generalizing i x with
  | nil => simp [fillRow]
  | cons p ps ih =>
    cases x with
    | zero => simp [fillRow]
    | succ n =>
      have h := ih (i + 1) n
      simp only [fillRow, List.getD_cons_succ, h, List.length_cons]
      split_ifs <;> first | rfl | omega

lemma length_fillRows (v : ℕ) (x1 x2 y1 y2 : ℤ) (j : ℤ) (img : Image) :
    (fillRows v x1 x2 y1 y2 j img).length = img.length := by
  induction img generalizing j with
  | nil => rfl
  | cons r rs ih => simp [fillRows, ih]

lemma fillRows_getD (v : ℕ) (x1 x2 y1 y2 : ℤ) (j : ℤ) (img : Image) (y : ℕ) :
    (fillRows v x1 x2 y1 y2 j img).getD y [] =
      if y1 ≤ j + (y : ℤ) ∧ j + (y : ℤ) < y2 then fillRow v x1 x2 0 (img.getD y [])
      else img.getD y [] := by
  induction img generalizing j y with
  | nil => simp [fillRows, fillRow]
  | cons r rs ih =>
    cases y with
    | zero => simp [fillRows]
    | succ n =>
      have h := ih (j + 1) n
      simp only [fillRows, List.getD_cons_succ, h]
      split_ifs <;> first | rfl | omega

lemma fillRegion_def (v : ℕ) (r : Region) (img : Image) :
    fillRegion v r img =
      fillRows v (normRegion img r).x1 (normRegion img r).x2
        (normRegion img r).y1 (normRegion img r).y2 0 img := rfl

lemma fillRegion_length (v : ℕ) (r : Region) (img : Image) :
    (fillRegion v r img).length = img.length :=
  length_fillRows v (normRegion img r).x1 (normRegion img r).x2
    (normRegion img r).y1 (normRegion img r).y2 0 img

lemma fillRegion_getD (v : ℕ) (r : Region) (img : Image) (y : ℕ) :
    (fillRegion v r img).getD y [] =
      if (normRegion img r).y1 ≤ (y : ℤ) ∧ (y : ℤ) < (normRegion img r).y2 then
        fillRow v (normRegion img r).x1 (normRegion img r).x2 0 (img.getD y [])
      else img.getD y [] := by
  have h := fillRows_getD v (normRegion img r).x1 (normRegion img r).x2
    (normRegion img r).y1 (normRegion img r).y2 0 img y
  simpa using h

lemma fillRegion_rowLength (v : ℕ) (r : Region) (img : Image) (y : ℕ) :
    ((fillRegion v r img).getD y []).length = (img.getD y []).length := by
  rw [fillRegion_getD]
  split_ifs
  · exact length_fillRow ..
  · rfl

lemma imgWidth_fillRows (v : ℕ) (x1 x2 y1 y2 : ℤ) (j : ℤ) (img : Image) :
    imgWidth (fillRows v x1 x2 y1 y2 j img) = imgWidth img := by
  cases img with
  | nil => rfl
  | cons row rows =>
    by_cases h : y1 ≤ j ∧ j < y2 <;>
      simp [fillRows, imgWidth, List.headI, h, length_fillRow]

lemma imgWidth_fillRegion (v : ℕ) (r : Region) (img : Image) :
    imgWidth (fillRegion v r img) = imgWidth img := by
  rw [fillRegion_def]
  exact imgWidth_fillRows ..

lemma normRegion_fillRows (v : ℕ) (x1 x2 y1 y2 : ℤ) (j : ℤ) (img : Image) (r : Region) :
    normRegion (fillRows v x1 x2 y1 y2 j img) r = normRegion img r := by
  unfold normRegion
  rw [show imgWidth (fillRows v x1 x2 y1 y2 j img) = imgWidth img from imgWidth_fillRows ..,
    show imgHeight (fillRows v x1 x2 y1 y2 j img) = imgHeight img from
      length_fillRows v x1 x2 y1 y2 j img]

lemma fillRow_fillRow (v : ℕ) (a1 a2 b1 b2 : ℤ) (i : ℤ) (row : List ℕ) :
    fillRow v a1 a2 i (fillRow v b1 b2 i row) =
      fillRow v b1 b2 i (fillRow v a1 a2 i row) := by
  induction row generalizing i with
  | nil => rfl
  | cons p ps ih =>
    simp only [fillRow]
    refine congrArg₂ List.cons ?_ (ih (i + 1))
    by_cases h1 : a1 ≤ i ∧ i < a2 <;> by_cases h2 : b1 ≤ i ∧ i < b2 <;> simp [h1, h2]

lemma fillRow_idem (v : ℕ) (x1 x2 : ℤ) (i : ℤ) (row : List ℕ) :
    fillRow v x1 x2 i (fillRow v x1 x2 i row) = fillRow v x1 x2 i row := by
  induction row generalizing i with
  | nil => rfl
  | cons p ps ih =>
    simp only [fillRow]
    refine congrArg₂ List.cons ?_ (ih (i + 1))
    by_cases h : x1 ≤ i ∧ i < x2 <;> simp [h]

lemma fillRows_fillRows (v : ℕ) (a1 a2 a3 a4 b1 b2 b3 b4 : ℤ) (j : ℤ) (img : Image) :
    fillRows v a1 a2 a3 a4 j (fillRows v b1 b2 b3 b4 j img) =
      fillRows v b1 b2 b3 b4 j (fillRows v a1 a2 a3 a4 j img) := by
  induction img generalizing j with
  | nil => rfl
  | cons r rs ih =>
    simp only [fillRows]
    refine congrArg₂ List.cons ?_ (ih (j + 1))
    by_cases h1 : a3 ≤ j ∧ j < a4 <;> by_cases h2 : b3 ≤ j ∧ j < b4 <;>
      simp [h1, h2, fillRow_fillRow]

lemma fillRows_idem (v : ℕ) (x1 x2 y1 y2 : ℤ) (j : ℤ) (img : Image) :
    fillRows v x1 x2 y1 y2 j (fillRows v x1 x2 y1 y2 j img) =
      fillRows v x1 x2 y1 y2 j img := by
  induction img generalizing j with
  | nil => rfl
  | cons r rs ih =>
    simp only [fillRows]
    refine congrArg₂ List.cons ?_ (ih (j + 1))
    by_cases h : y1 ≤ j ∧ j < y2 <;> simp [h, fillRow_idem]

lemma fillRegion_comm (v : ℕ) (r1 r2 : Region) (img : Image) :
    fillRegion v r1 (fillRegion v r2 img) = fillRegion v r2 (fillRegion v r1 img) := by
  simp only [fillRegion_def, normRegion_fillRows]
  exact fillRows_fillRows ..

lemma fillRegion_idem (v : ℕ) (r : Region) (img : Image) :
    fillRegion v r (fillRegion v r img) = fillRegion v r img := by
  simp only [fillRegion_def, normRegion_fillRows]
  exact fillRows_idem ..

lemma foldl_push {α β : Type} (f : α → β → α)
    (hc : ∀ a b1 b2, f (f a b1) b2 = f (f a b2) b1)
    (l : List β) (a : α) (b : β) : f (l.foldl f a) b = l.foldl f (f a b) := by
  induction l generalizing a with
  | nil => rfl
  | cons c t ih => simp only [List.foldl_cons]; rw [ih, hc]

lemma foldl_self {α β : Type} (f : α → β → α)
    (hc : ∀ a b1 b2, f (f a b1) b2 = f (f a b2) b1)
    (hi : ∀ a b, f (f a b) b = f a b)
    (l : List β) (a : α) : l.foldl f (l.foldl f a) = l.foldl f a := by
  induction l generalizing a with
  | nil => rfl
  | cons b t ih =>
    simp only [List.foldl_cons]
    rw [foldl_push f hc t (f a b) b, hi, ih]

lemma length_foldl_fill (v : ℕ) (g : Box → Region) (l : List Box) (a : Image) :
    (l.foldl (fun red b => fillRegion v (g b) red) a).length = a.length := by
  induction l generalizing a with
  | nil => rfl
  | cons b t ih => rw [List.foldl_cons, ih, fillRegion_length]

lemma imgWidth_foldl_fill (v : ℕ) (g : Box → Region) (l : List Box) (a : Image) :
    imgWidth (l.foldl (fun red b => fillRegion v (g b) red) a) = imgWidth a := by
  induction l generalizing a with
  | nil => rfl
  | cons b t ih => rw [List.foldl_cons, ih, imgWidth_fillRegion]

lemma rowLength_foldl_fill (v : ℕ) (g : Box → Region) (l : List Box) (a : Image) (y : ℕ) :
    ((l.foldl (fun red b => fillRegion v (g b) red) a).getD y []).length
      = (a.getD y []).length := by
  induction l generalizing a with
  | nil => rfl
  | cons b t ih => rw [List.foldl_cons, ih, fillRegion_rowLength]

lemma getP_fillRegion_outside (v : ℕ) (r : Region) (img : Image) (x y : ℕ)
    (h : ¬ inRegion (normRegion img r) x y) :
    getP (fillRegion v r img) y x = getP img y x := by
  unfold getP
  rw [fillRegion_getD]
  split_ifs with hy
  · rw [fillRow_getD]
    split_ifs with hx
    · exfalso
      unfold inRegion at h
      push_cast at hx
      exact h ⟨by omega, by omega, hy.1, hy.2⟩
    · rfl
  · rfl

lemma getP_foldl_outside (v : ℕ) (g : Box → Region) (l : List Box) (a : Image) (x y : ℕ)
    (h : ∀ b ∈ l, ¬ inRegion (normRegion a (g b)) x y) :
    getP (l.foldl (fun red b => fillRegion v (g b) red) a) y x = getP a y x := by
  induction l generalizing a with
  | nil => rfl
  | cons b t ih =>
    have hpres : ∀ c ∈ t, ¬ inRegion (normRegion (fillRegion v (g b) a) (g c)) x y := by
      intro c hc
      rw [fillRegion_def, normRegion_fillRows]
      exact h c (List.mem_cons_of_mem _ hc)
    rw [List.foldl_cons, ih _ hpres,
      getP_fillRegion_outside v (g b) a x y (h b (List.mem_cons_self _ _))]

lemma Box.contains_refl (b : Box) : b.contains b := by
  unfold Box.contains
  omega

lemma Box.contains_trans {a b c : Box} (h1 : a.contains b) (h2 : b.contains c) :
    a.contains c := by
  unfold Box.contains at *
  omega

lemma boxUnion_contains_left (b m : Box) : (boxUnion b m).contains b := by
  unfold boxUnion Box.contains
  dsimp only
  omega

lemma boxUnion_contains_right (b m : Box) : (boxUnion b m).contains m := by
  unfold boxUnion Box.contains
  dsimp only
  omega

lemma insertBox_covers (margin : ℤ) (b : Box) (ms : List Box) :
    ∃ m ∈ insertBox margin b ms, m.contains b := by
  induction ms with
  | nil => exact ⟨b, by simp [insertBox], Box.contains_refl b⟩
  | cons m t ih =>
    by_cases h : boxClose margin b m
    · exact ⟨boxUnion b m, by simp [insertBox, h], boxUnion_contains_left b m⟩
    · obtain ⟨m', hm', hc⟩ := ih
      exact ⟨m', by simp [insertBox, h, hm'], hc⟩

lemma insertBox_mono (margin : ℤ) (b : Box) (ms : List Box) (m0 : Box) (hm0 : m0 ∈ ms) :
    ∃ m' ∈ insertBox margin b ms, m'.contains m0 := by
  induction ms with
  | nil => cases hm0
  | cons m t ih =>
    by_cases h : boxClose margin b m
    · rcases List.mem_cons.mp hm0 with h0 | h0
      · subst h0
        exact ⟨boxUnion b m0, by simp [insertBox, h], boxUnion_contains_right b m0⟩
      · exact ⟨m0, by simp [insertBox, h, h0], Box.contains_refl m0⟩
    · rcases List.mem_cons.mp hm0 with h0 | h0
      · subst h0
        exact ⟨m0, by simp [insertBox, h], Box.contains_refl m0⟩
      · obtain ⟨m', hm', hc⟩ := ih h0
        exact ⟨m', by simp [insertBox, h, hm'], hc⟩

lemma insertBox_length (margin : ℤ) (b : Box) (ms : List Box) :
    (insertBox margin b ms).length ≤ ms.length + 1 := by
  induction ms with
  | nil => simp [insertBox]
  | cons m t ih =>
    by_cases h : boxClose margin b m <;> simp [insertBox, h]
    omega

lemma foldl_insert_covers_mem (margin : ℤ) (l : List Box) (acc : List Box) (c : Box)
    (h : ∃ m ∈ acc, m.contains c) :
    ∃ m ∈ l.foldl (fun merged b => insertBox margin b merged) acc, m.contains c := by
  induction l generalizing acc with
  | nil => exact h
  | cons b t ih =>
    rw [List.foldl_cons]
    apply ih
    obtain ⟨m, hm, hc⟩ := h
    obtain ⟨m', hm', hc'⟩ := insertBox_mono margin b acc m hm
    exact ⟨m', hm', Box.contains_trans hc' hc⟩

lemma foldl_insert_covers (margin : ℤ) (l : List Box) (acc : List Box) (b : Box) (hb : b ∈ l) :
    ∃ m ∈ l.foldl (fun merged b => insertBox margin b merged) acc, m.contains b := by
  induction l generalizing acc with
  | nil => cases hb
  | cons a t ih =>
    rw [List.foldl_cons]
    rcases List.mem_cons.mp hb with h0 | h0
    · subst h0
      exact foldl_insert_covers_mem margin t _ b (insertBox_covers margin b acc)
    · exact ih _ h0

lemma foldl_insert_length (margin : ℤ) (l : List Box) (acc : List Box) :
    (l.foldl (fun merged b => insertBox margin b merged) acc).length
      ≤ acc.length + l.length := by
  induction l generalizing acc with
  | nil => simp
  | cons b t ih =>
    rw [List.foldl_cons]
    have h1 := ih (insertBox margin b acc)
    have h2 := insertBox_length margin b acc
    simp only [List.length_cons]
    omega

lemma toU8_lt (q : ℚ) : toU8 q < 256 := by
  unfold toU8
  have h0 : (0 : ℤ) ≤ ratTrunc q % 256 := Int.emod_nonneg _ (by norm_num)
  have h1 : ratTrunc q % 256 < 256 := Int.emod_lt_of_pos _ (by norm_num)
  omega

lemma windowRescale_lt (lower upper v : ℚ) : windowRescale lower upper v < 256 :=
  toU8_lt _

set_option maxRecDepth 4000 in
lemma bitwiseNot8_eq (n : ℕ) (h : n < 256) : bitwiseNot8 n = 255 - n := by
  revert n
  decide

lemma strategyA_denom_eq (wc ww : Option ℚ) (data : List ℚ) :
    strategyA_denom wc ww data = (resolveWindowA wc ww data).2 := by
  simp only [strategyA_denom]
  ring

lemma strategyB_denom_eq (bitsStored : ℕ) (wc ww : Option ℚ) :
    strategyB_denom bitsStored wc ww = (resolveWindowB bitsStored wc ww).2 := by
  simp only [strategyB_denom]
  ring

lemma fallback_width_ne_zero (data : List ℚ) :
    (if npMax data > npMin data then npMax data - npMin data else (1 : ℚ)) ≠ 0 := by
  split_ifs with h
  · exact sub_ne_zero.mpr (ne_of_gt h)
  · norm_num

/-- C1 counterexample: the claim says that in CLAHE mode an absent
window/level is resolved exactly as in strategy A, derived from the data as
`center = (min+max)/2`, `width = max(max-min, 1)`.  On data with min 0 and
max 100 the strategy A derivation yields `(50, 100)`, but the CLAHE branch
uses the fixed window `(128, 256)` whenever a tag is absent, so the two
resolutions differ. -/
theorem claim_C1_counterexample :
    resolveWindowB 8 none none = (128, 256) ∧
    resolveWindowA none none [0, 100] = (50, 100) ∧
    resolveWindowB 8 none none ≠ resolveWindowA none none [0, 100] := by
  have hA : resolveWindowA none none [0, 100] = (50, 100) := by
    simp [resolveWindowA, npMin, npMax, List.headI]
    norm_num
  have hB : resolveWindowB 8 none none = (128, 256) := rfl
  refine ⟨hB, hA, ?_⟩
  rw [hA, hB]
  intro h
  rw [Prod.mk.injEq] at h
  exact absurd h.1 (by norm_num)

/-- C1 amended: in CLAHE mode (strategy B), whenever the window center or
width metadata is absent, the code substitutes the fixed full-range window
`center = 128`, `width = 256`, independent of the data. -/
theorem claim_C1_amended (bitsStored : ℕ) (wc ww : Option ℚ)
    (h : wc = none ∨ ww = none) :
    resolveWindowB bitsStored wc ww = (128, 256) := by
  rcases h with h | h
  · subst h
    cases ww <;> rfl
  · subst h
    cases wc <;> rfl

/-- C1 witness: the amended statement at the concrete absent-tag input. -/
theorem claim_C1_amended_witness :
    ((none : Option ℚ) = none ∨ (none : Option ℚ) = none) ∧
    resolveWindowB 8 none none = (128, 256) :=
  ⟨Or.inl rfl, claim_C1_amended 8 none none (Or.inl rfl)⟩

/-- C2 counterexample: when the source metadata supplies `WindowCenter = 100`
and `WindowWidth = 0`, the denominator `upper - lower` of the window rescale
is zero, in strategy A and (for `BitsStored ≤ 8`) in strategy B alike, so the
claim that the window rescale never divides by zero fails. -/
theorem claim_C2_counterexample :
    strategyA_denom (some 100) (some 0) [0, 50] = 0 ∧
    strategyB_denom 8 (some 100) (some 0) = 0 := by
  constructor
  · simp [strategyA_denom, resolveWindowA]
  · simp [strategyB_denom, resolveWindowB]

/-- C2 amended: the data-derived rescales are guarded (a missing-tag fallback
window never has zero width, and the full-range conversion skips its rescale
when `max ≤ min`, reusing the input values up to the dtype cast); the window
rescale denominator is zero exactly when the metadata supplies both tags with
`WindowWidth = 0` (in CLAHE mode additionally only when `BitsStored ≤ 8`,
since larger bit depths replace the metadata window by the full-range one). -/
theorem claim_C2_amended (bitsStored : ℕ) (wc ww : Option ℚ) (data : List ℚ) :
    (strategyA_denom wc ww data = 0 ↔ ∃ c, wc = some c ∧ ww = some 0) ∧
    (strategyB_denom bitsStored wc ww = 0 ↔
      bitsStored ≤ 8 ∧ ∃ c, wc = some c ∧ ww = some 0) ∧
    (∀ d : List ℚ, npMax d ≤ npMin d → fullRangeTo8 d = d.map (fun v => toU8 v)) := by
  refine ⟨?_, ?_, ?_⟩
  · rw [strategyA_denom_eq]
    cases wc with
    | none =>
      cases ww with
      | none =>
        simp only [resolveWindowA]
        constructor
        · intro h
          exact absurd h (fallback_width_ne_zero data)
        · rintro ⟨c, hc, -⟩
          exact Option.noConfusion hc
      | some w =>
        simp only [resolveWindowA]
        constructor
        · intro h
          exact absurd h (fallback_width_ne_zero data)
        · rintro ⟨c, hc, -⟩
          exact Option.noConfusion hc
    | some c =>
      cases ww with
      | none =>
        simp only [resolveWindowA]
        constructor
        · intro h
          exact absurd h (fallback_width_ne_zero data)
        · rintro ⟨c', -, hw⟩
          exact Option.noConfusion hw
      | some w =>
        show w = 0 ↔ _
        constructor
        · intro h
          exact ⟨c, rfl, by rw [h]⟩
        · rintro ⟨c', -, hw⟩
          rw [Option.some.injEq] at hw
          exact hw
  · rw [strategyB_denom_eq]
    cases wc with
    | none =>
      cases ww with
      | none =>
        simp only [resolveWindowB]
        constructor
        · intro h
          norm_num at h
        · rintro ⟨-, c, hc, -⟩
          exact Option.noConfusion hc
      | some w =>
        simp only [resolveWindowB]
        constructor
        · intro h
          norm_num at h
        · rintro ⟨-, c, hc, -⟩
          exact Option.noConfusion hc
    | some c =>
      cases ww with
      | none =>
        simp only [resolveWindowB]
        constructor
        · intro h
          norm_num at h
        · rintro ⟨-, c', -, hw⟩
          exact Option.noConfusion hw
      | some w =>
        simp only [resolveWindowB]
        split_ifs with h8
        · constructor
          · intro h
            norm_num at h
          · rintro ⟨hle, -⟩
            omega
        · have hsh : ((c, w) : ℚ × ℚ).2 = w := rfl
          rw [hsh]
          constructor
          · intro h
            exact ⟨by omega, c, rfl, by rw [h]⟩
          · rintro ⟨-, c', -, hw⟩
            rw [Option.some.injEq] at hw
            exact hw
  · intro d h
    simp only [fullRangeTo8]
    rw [if_neg (not_lt.mpr h)]

/-- C2 witness: the amended statement instantiated at concrete inputs; the
missing-tag fallback denominator is nonzero, and a degenerate constant array
skips the full-range rescale. -/
theorem claim_C2_amended_witness :
    (strategyA_denom none none [0, 100] = 0 ↔
      ∃ c, (none : Option ℚ) = some c ∧ (none : Option ℚ) = some 0) ∧
    fullRangeTo8 [5, 5] = [5, 5].map (fun v => toU8 v) := by
  refine ⟨(claim_C2_amended 8 none none [0, 100]).1, ?_⟩
  apply (claim_C2_amended 8 none none [0, 100]).2.2
  simp [npMin, npMax, List.headI]

/-- C3 counterexample: on a color input (`SamplesPerPixel = 2`) whose selected
array has 2 channels, frame selection does not fail: it returns successfully
with the array unconverted and no output image captured, and in particular
never produces `UnsupportedImageFormat` (no such failure exists in the code). -/
theorem claim_C3_counterexample :
    frameSelect 2 ⟨[5, 5, 2]⟩ = Except.ok (⟨[5, 5, 2]⟩, none) ∧
    frameSelect 2 ⟨[5, 5, 2]⟩ ≠ Except.error FrameError.unsupportedImageFormat := by
  have h1 : frameSelect 2 ⟨[5, 5, 2]⟩ = Except.ok (⟨[5, 5, 2]⟩, none) := rfl
  refine ⟨h1, ?_⟩
  rw [h1]
  intro h
  exact Except.noConfusion h

/-- C3 amended: for every color input whose selected array has a channel
count other than 3 or 4, frame selection succeeds, passing the selected array
through unconverted with no captured output; no `UnsupportedImageFormat`
failure is raised. -/
theorem claim_C3_amended (samplesPerPixel : ℕ) (a0 : NdShape)
    (h1 : 1 < samplesPerPixel)
    (h3 : channels (selColorFrame a0) ≠ 3)
    (h4 : channels (selColorFrame a0) ≠ 4) :
    frameSelect samplesPerPixel a0 = Except.ok (selColorFrame a0, none) := by
  simp [frameSelect, h1, h3, h4]

/-- C3 witness: the amended statement at the concrete 2-channel input. -/
theorem claim_C3_amended_witness :
    (1 < 2 ∧ channels (selColorFrame ⟨[5, 5, 2]⟩) ≠ 3 ∧
      channels (selColorFrame ⟨[5, 5, 2]⟩) ≠ 4) ∧
    frameSelect 2 ⟨[5, 5, 2]⟩ = Except.ok (selColorFrame ⟨[5, 5, 2]⟩, none) :=
  ⟨⟨by norm_num, by decide, by decide⟩, claim_C3_amended 2 ⟨[5, 5, 2]⟩ (by norm_num) (by decide) (by decide)⟩

/-- C4: for every input list of boxes with positive width and height, every
input box is contained in some box of the merged list, and the merged list is
no longer than the input: merging never loses redaction coverage. -/
theorem claim_C4 (margin : ℤ) (boxes : List Box)
    (hpos : ∀ b ∈ boxes, 0 < b.w ∧ 0 < b.h) :
    (∀ b ∈ boxes, ∃ m ∈ merge_overlapping_boxes margin boxes, m.contains b) ∧
    (merge_overlapping_boxes margin boxes).length ≤ boxes.length := by
  unfold merge_overlapping_boxes
  split_ifs with h
  · subst h
    simp
  · constructor
    · intro b hb
      exact foldl_insert_covers margin _ [] b
        (((List.perm_insertionSort boxKeyLE boxes).mem_iff).mpr hb)
    · have h1 := foldl_insert_length margin (List.insertionSort boxKeyLE boxes) []
      have h2 : (List.insertionSort boxKeyLE boxes).length = boxes.length :=
        (List.perm_insertionSort boxKeyLE boxes).length_eq
      simp only [List.length_nil] at h1
      omega

/-- C4 witness: the coverage and length bound at a concrete box list. -/
theorem claim_C4_witness :
    (∀ b ∈ [Box.mk 0 0 2 2], 0 < b.w ∧ 0 < b.h) ∧
    ((∀ b ∈ [Box.mk 0 0 2 2],
        ∃ m ∈ merge_overlapping_boxes 5 [Box.mk 0 0 2 2], m.contains b) ∧
      (merge_overlapping_boxes 5 [Box.mk 0 0 2 2]).length
        ≤ ([Box.mk 0 0 2 2] : List Box).length) := by
  have hp : ∀ b ∈ [Box.mk 0 0 2 2], 0 < b.w ∧ 0 < b.h := by decide
  exact ⟨hp, claim_C4 5 [Box.mk 0 0 2 2] hp⟩

/-- C7: merging the rectangles (0,0,10,10), (8,8,10,10), (100,100,5,5) with
margin 5 yields exactly two rectangles: one covering (0,0) to (18,18) and
(100,100,5,5) unchanged. -/
theorem claim_C7 :
    merge_overlapping_boxes 5 [⟨0, 0, 10, 10⟩, ⟨8, 8, 10, 10⟩, ⟨100, 100, 5, 5⟩]
      = [⟨0, 0, 18, 18⟩, ⟨100, 100, 5, 5⟩] := by
  decide

/-- C8: with an empty detection sequence the redacted raster is bit-identical
to the input raster (the Python `None` case takes the same no-box path as the
empty list), and the extracted text is exactly the placeholder string. -/
theorem claim_C8 (image : Image) (padding : ℤ) :
    redact_text_regions image [] padding = image ∧
    extractedText [] = "(No text detected)" :=
  ⟨rfl, rfl⟩

/-- C9 counterexample: at window lower 0, upper 256 and sample 100, the exact
rescale value is 25500/256 = 99.609…; the code truncates it to 99 while the
claimed round-to-nearest-and-clamp semantics gives 100. -/
theorem claim_C9_counterexample :
    windowRescale 0 256 100 = 99 ∧
    windowRescaleSpec 0 256 100 = 100 ∧
    (99 : ℕ) ≠ 100 := by
  refine ⟨?_, ?_, by decide⟩
  · unfold windowRescale toU8 ratTrunc
    have h1 : ((100 : ℚ) - 0) / (256 - 0) * 255 = 25500 / 256 := by norm_num
    rw [h1]
    rw [if_neg (by norm_num : ¬ ((25500 : ℚ) / 256 < 0))]
    have h3 : ⌊(25500 : ℚ) / 256⌋ = 99 := by
      rw [Int.floor_eq_iff]
      norm_num
    rw [h3]
    decide
  · unfold windowRescaleSpec
    have h1 : ((100 : ℚ) - 0) / (256 - 0) * 255 = 25500 / 256 := by norm_num
    rw [h1]
    have h2 : round ((25500 : ℚ) / 256) = 100 := by
      rw [round_eq]
      have : (25500 : ℚ) / 256 + 1 / 2 = 25628 / 256 := by norm_num
      rw [this, Int.floor_eq_iff]
      norm_num
    rw [h2]
    decide

/-- C9 amended: for every sample `v` in `[lower, upper]` with `lower < upper`,
the 8-bit result of the strategy A rescale equals the exact value
`(v - lower) / (upper - lower) * 255` truncated toward zero (equivalently its
floor, the value being nonnegative), and it already lies in the uint8 range,
so no clamping occurs. -/
theorem claim_C9_amended (lower upper v : ℚ)
    (h1 : lower < upper) (h2 : lower ≤ v) (h3 : v ≤ upper) :
    windowRescale lower upper v = (⌊(v - lower) / (upper - lower) * 255⌋).toNat ∧
    windowRescale lower upper v ≤ 255 := by
  set q := (v - lower) / (upper - lower) * 255 with hq
  have hnn : 0 ≤ q := by
    apply mul_nonneg _ (by norm_num)
    apply div_nonneg <;> linarith
  have hle : q ≤ 255 := by
    rw [hq]
    have hd : (v - lower) / (upper - lower) ≤ 1 :=
      (div_le_one (by linarith)).mpr (by linarith)
    have := mul_le_mul_of_nonneg_right hd (by norm_num : (0 : ℚ) ≤ 255)
    simpa using this
  have htr : ratTrunc q = ⌊q⌋ := by
    unfold ratTrunc
    rw [if_neg (not_lt.mpr hnn)]
  have hfl0 : 0 ≤ ⌊q⌋ := Int.floor_nonneg.mpr hnn
  have hfl255 : ⌊q⌋ ≤ 255 := by
    have h255 : ⌊q⌋ ≤ ⌊(255 : ℚ)⌋ := Int.floor_le_floor hle
    have : ⌊(255 : ℚ)⌋ = 255 := by norm_num
    omega
  have hmod : ratTrunc q % 256 = ⌊q⌋ := by
    rw [htr]
    exact Int.emod_eq_of_lt hfl0 (by omega)
  constructor
  · unfold windowRescale toU8
    rw [hmod]
  · unfold windowRescale toU8
    rw [hmod]
    omega

/-- C9 witness: the amended statement at the concrete window (0, 256) and
sample 100. -/
theorem claim_C9_amended_witness :
    windowRescale 0 256 100 = (⌊((100 : ℚ) - 0) / (256 - 0) * 255⌋).toNat ∧
    windowRescale 0 256 100 ≤ 255 :=
  claim_C9_amended 0 256 100 (by norm_num) (by norm_num) (by norm_num)

/-- C10: for every `MONOCHROME1` input, the normalized output sample equals
255 minus the windowed 8-bit value before inversion, in both normalization
strategies (the non-inverted value being the output the same pipeline produces
for the `MONOCHROME2` convention). -/
theorem claim_C10 (wc ww : Option ℚ) (data : List ℚ) (v : ℚ)
    (bitsStored : ℕ) (claheVal : ℕ) :
    strategyA_pixel "MONOCHROME1" wc ww data v
      = 255 - strategyA_pixel "MONOCHROME2" wc ww data v ∧
    strategyB_pixel "MONOCHROME1" bitsStored wc ww claheVal
      = 255 - strategyB_pixel "MONOCHROME2" bitsStored wc ww claheVal := by
  have h2 : ¬ (("MONOCHROME2" : String) = "MONOCHROME1") := by decide
  constructor
  · simp only [strategyA_pixel, if_pos rfl, if_neg h2]
    exact bitwiseNot8_eq _ (windowRescale_lt ..)
  · simp only [strategyB_pixel, if_pos rfl, if_neg h2]
    exact bitwiseNot8_eq _ (windowRescale_lt ..)

/-- C5 counterexample: redaction is not idempotent, because the fill color is
the median of the raster being redacted and the first redaction can change
that median.  On the 1-by-2 raster [0, 100] with one detection over pixel
(0,0) and padding 0, the first redaction fills with median 50 giving
[50, 100]; redacting that again fills with the new median 75, giving
[75, 100], which differs. -/
theorem claim_C5_counterexample :
    redact_text_regions
        (redact_text_regions [[0, 100]] [⟨some [(0, 0), (1, 0), (1, 1), (0, 1)], "x", 1⟩] 0)
        [⟨some [(0, 0), (1, 0), (1, 1), (0, 1)], "x", 1⟩] 0
      ≠ redact_text_regions [[0, 100]] [⟨some [(0, 0), (1, 0), (1, 1), (0, 1)], "x", 1⟩] 0 := by
  have hb : redactBoxes [⟨some [(0, 0), (1, 0), (1, 1), (0, 1)], "x", 1⟩] = [⟨0, 0, 1, 1⟩] := by
    simp [redactBoxes, detBox, stripTruthy, merge_overlapping_boxes, List.insertionSort,
      List.orderedInsert, insertBox, List.filterMap]
  have e1 : redact_text_regions [[0, 100]] [⟨some [(0, 0), (1, 0), (1, 1), (0, 1)], "x", 1⟩] 0
      = [[50, 100]] := by
    have hm : npMedian (List.flatten [[0, 100]]) = 50 := by
      simp [npMedian, List.insertionSort, List.orderedInsert]
      norm_num
    have ht : toU8 50 = 50 := by
      simp [toU8, ratTrunc]
      decide
    simp only [redact_eq, medianFill, hb, hm, ht]
    simp [expandClamp, imgWidth, imgHeight, fillRegion, normRegion, sliceIdx, fillRows,
      fillRow, List.headI]
  have e2 : redact_text_regions [[50, 100]] [⟨some [(0, 0), (1, 0), (1, 1), (0, 1)], "x", 1⟩] 0
      = [[75, 100]] := by
    have hm : npMedian (List.flatten [[50, 100]]) = 75 := by
      simp [npMedian, List.insertionSort, List.orderedInsert]
      norm_num
    have ht : toU8 75 = 75 := by
      simp [toU8, ratTrunc]
      decide
    simp only [redact_eq, medianFill, hb, hm, ht]
    simp [expandClamp, imgWidth, imgHeight, fillRegion, normRegion, sliceIdx, fillRows,
      fillRow, List.headI]
  rw [e1, e2]
  decide

/-- C5 amended: redaction is idempotent whenever the first redaction leaves
the raster median unchanged (in particular whenever the fill does not move
the median); in general the second redaction fills the same regions with the
median of the already-redacted raster, which may differ. -/
theorem claim_C5_amended (image : Image) (detections : List Detection) (padding : ℤ)
    (hmed : npMedian (redact_text_regions image detections padding).flatten
      = npMedian image.flatten) :
    redact_text_regions (redact_text_regions image detections padding) detections padding
      = redact_text_regions image detections padding := by
  have hH : imgHeight (redact_text_regions image detections padding) = imgHeight image := by
    unfold imgHeight
    rw [redact_eq]
    exact length_foldl_fill ..
  have hW : imgWidth (redact_text_regions image detections padding) = imgWidth image := by
    rw [redact_eq]
    exact imgWidth_foldl_fill ..
  have hEC : ∀ b, expandClamp (redact_text_regions image detections padding) padding b
      = expandClamp image padding b := by
    intro b
    unfold expandClamp
    rw [hH, hW]
  have hMF : medianFill (redact_text_regions image detections padding) = medianFill image := by
    unfold medianFill
    rw [hmed]
  conv_lhs => rw [redact_eq]
  rw [hMF]
  simp only [hEC]
  rw [redact_eq image detections padding]
  exact foldl_self _
    (fun a b1 b2 => fillRegion_comm ..)
    (fun a b => fillRegion_idem ..) _ _

/-- C5 witness: a raster and detection where the fill leaves the median
unchanged, so the hypothesis of the amended statement holds and redaction is
idempotent there. -/
theorem claim_C5_amended_witness :
    npMedian (redact_text_regions [[10, 10, 10, 99]]
        [⟨some [(3, 0), (4, 0), (4, 1), (3, 1)], "x", 1⟩] 0).flatten
      = npMedian (List.flatten [[10, 10, 10, 99]]) ∧
    redact_text_regions
        (redact_text_regions [[10, 10, 10, 99]]
          [⟨some [(3, 0), (4, 0), (4, 1), (3, 1)], "x", 1⟩] 0)
        [⟨some [(3, 0), (4, 0), (4, 1), (3, 1)], "x", 1⟩] 0
      = redact_text_regions [[10, 10, 10, 99]]
          [⟨some [(3, 0), (4, 0), (4, 1), (3, 1)], "x", 1⟩] 0 := by
  have hb : redactBoxes [⟨some [(3, 0), (4, 0), (4, 1), (3, 1)], "x", 1⟩] = [⟨3, 0, 1, 1⟩] := by
    simp [redactBoxes, detBox, stripTruthy, merge_overlapping_boxes, List.insertionSort,
      List.orderedInsert, insertBox, List.filterMap]
  have hm : npMedian (List.flatten [[10, 10, 10, 99]]) = 10 := by
    simp [npMedian, List.insertionSort, List.orderedInsert]
  have ht : toU8 10 = 10 := by
    simp [toU8, ratTrunc]
    decide
  have e1 : redact_text_regions [[10, 10, 10, 99]]
      [⟨some [(3, 0), (4, 0), (4, 1), (3, 1)], "x", 1⟩] 0 = [[10, 10, 10, 10]] := by
    simp only [redact_eq, medianFill, hb, hm, ht]
    simp [expandClamp, imgWidth, imgHeight, fillRegion, normRegion, sliceIdx, fillRows,
      fillRow, List.headI]
  have hmed : npMedian (redact_text_regions [[10, 10, 10, 99]]
        [⟨some [(3, 0), (4, 0), (4, 1), (3, 1)], "x", 1⟩] 0).flatten
      = npMedian (List.flatten [[10, 10, 10, 99]]) := by
    rw [e1, hm]
    simp [npMedian, List.insertionSort, List.orderedInsert]
  exact ⟨hmed, claim_C5_amended [[10, 10, 10, 99]]
    [⟨some [(3, 0), (4, 0), (4, 1), (3, 1)], "x", 1⟩] 0 hmed⟩

/-- C6 counterexample: redaction can change a pixel outside every
padding-expanded merged rectangle.  On the 1-by-4 raster [1, 2, 3, 100] a
detection box (-3, 0, 1, 1) lying wholly left of the image gives the clamped
slice bounds `x1 = max(0, -3) = 0`, `x2 = min(4, -2) = -2`; its expanded
rectangle `[0, -2) × [0, 1)` is empty and excludes pixel (0, 0), yet numpy
interprets the negative stop as `4 - 2 = 2`, so `redacted[0:1, 0:-2]` fills
columns 0 and 1 with the median 2 and pixel (0, 0) changes from 1 to 2. -/
theorem claim_C6_counterexample :
    (∀ b ∈ redactBoxes [⟨some [(-3, 0), (-2, 0), (-2, 1), (-3, 1)], "z", 1⟩],
      ¬ inRegion (expandClamp [[1, 2, 3, 100]] 0 b) 0 0) ∧
    getP (redact_text_regions [[1, 2, 3, 100]]
        [⟨some [(-3, 0), (-2, 0), (-2, 1), (-3, 1)], "z", 1⟩] 0) 0 0
      ≠ getP [[1, 2, 3, 100]] 0 0 := by
  have hout : ∀ b ∈ redactBoxes [⟨some [(-3, 0), (-2, 0), (-2, 1), (-3, 1)], "z", 1⟩],
      ¬ inRegion (expandClamp [[1, 2, 3, 100]] 0 b) 0 0 := by decide
  have hb : redactBoxes [⟨some [(-3, 0), (-2, 0), (-2, 1), (-3, 1)], "z", 1⟩]
      = [⟨-3, 0, 1, 1⟩] := by decide
  have hm : npMedian (List.flatten [[1, 2, 3, 100]]) = 5 / 2 := by
    simp [npMedian, List.insertionSort, List.orderedInsert]
    norm_num
  have ht : toU8 (5 / 2) = 2 := by
    unfold toU8 ratTrunc
    rw [if_neg (by norm_num : ¬ ((5 : ℚ) / 2 < 0))]
    have hf : ⌊(5 : ℚ) / 2⌋ = 2 := by
      rw [Int.floor_eq_iff]
      norm_num
    rw [hf]
    decide
  have e1 : redact_text_regions [[1, 2, 3, 100]]
      [⟨some [(-3, 0), (-2, 0), (-2, 1), (-3, 1)], "z", 1⟩] 0 = [[2, 2, 3, 100]] := by
    simp only [redact_eq, medianFill, hb, hm, ht]
    simp [expandClamp, imgWidth, imgHeight, fillRegion, normRegion, sliceIdx, fillRows,
      fillRow, List.headI]
  refine ⟨hout, ?_⟩
  rw [e1]
  decide

/-- C6 amended: for every raster, detection list and padding, redaction
preserves the number of rows and every row length (shape and dtype of the
raster), and every pixel outside the numpy-normalized slice regions of the
padding-expanded merged rectangles keeps its input value (a clamped stop that
is still negative wraps to `shape + stop`, as in `redacted[y1:y2, x1:x2]`).
Being a pure function of its input, redaction cannot mutate the input raster,
matching the `image.copy()` in the source. -/
theorem claim_C6_amended (image : Image) (detections : List Detection) (padding : ℤ) :
    (redact_text_regions image detections padding).length = image.length ∧
    (∀ y : ℕ, ((redact_text_regions image detections padding).getD y []).length
      = (image.getD y []).length) ∧
    (∀ y x : ℕ,
      (∀ b ∈ redactBoxes detections,
        ¬ inRegion (normRegion image (expandClamp image padding b)) x y) →
      getP (redact_text_regions image detections padding) y x = getP image y x) := by
  refine ⟨?_, ?_, ?_⟩
  · rw [redact_eq]
    exact length_foldl_fill ..
  · intro y
    rw [redact_eq]
    exact rowLength_foldl_fill ..
  · intro y x h
    rw [redact_eq]
    exact getP_foldl_outside _ _ _ _ _ _ h

/-- C6 witness: at a concrete raster and detection, the pixel (1, 1) lies
outside the only normalized expanded rectangle and is unchanged by
redaction. -/
theorem claim_C6_amended_witness :
    (∀ b ∈ redactBoxes [⟨some [(0, 0), (1, 0), (1, 1), (0, 1)], "y", 1⟩],
      ¬ inRegion (normRegion [[1, 2], [3, 4]]
        (expandClamp [[1, 2], [3, 4]] 0 b)) 1 1) ∧
    getP (redact_text_regions [[1, 2], [3, 4]]
        [⟨some [(0, 0), (1, 0), (1, 1), (0, 1)], "y", 1⟩] 0) 1 1
      = getP [[1, 2], [3, 4]] 1 1 := by
  have h : ∀ b ∈ redactBoxes [⟨some [(0, 0), (1, 0), (1, 1), (0, 1)], "y", 1⟩],
      ¬ inRegion (normRegion [[1, 2], [3, 4]]
        (expandClamp [[1, 2], [3, 4]] 0 b)) 1 1 := by decide
  exact ⟨h, (claim_C6_amended [[1, 2], [3, 4]]
    [⟨some [(0, 0), (1, 0), (1, 1), (0, 1)], "y", 1⟩] 0).2.2 1 1 h⟩

end RedactPhi
